import Mathlib

set_option autoImplicit false

/-!
Shallow embedding of the Personal-Knowledge-OS storage and sync layer
(TypeScript sources: the IndexedDB store, the `BrainStorage` facade,
the tag-sync utilities and the backlink utilities), together with
theorems checking the natural-language specification against it.

Modelling conventions used throughout:
* JavaScript strings are modelled by `String` / `List Char`; all inputs in
  the concrete evaluations are ASCII, where `Char.toLower` agrees with
  JavaScript `toLowerCase`.
* `Date` values are modelled by `Nat` timestamps passed in explicitly
  (`now` parameters); `crypto.randomUUID()` is modelled by a fresh-id
  counter carried in the database state.
* `undefined` / absent optional object fields are modelled by `Option`.
* IndexedDB object stores are modelled as lists of records in cursor
  (primary-key / index) traversal order; fallible operations return
  `Except` values.
-/

/-- Sync metadata carried by every stored entity (`SyncMetadata` in
`src/types/models.ts`): version, optional synced-at timestamp, optional
soft-delete flag, optional device attribution. -/
structure SyncMeta where
  version : Nat
  syncedAt : Option Nat
  isDeleted : Option Bool
  lastModifiedBy : Option String
deriving DecidableEq

/-- Nested (non-`sync`) object field of a stored record, standing in for any
nested substructure of an entity (e.g. a backlink's `position`), used to
exhibit the shallow-merge behaviour of `IndexedDBStorage.update`. -/
structure MetaObj where
  a : Nat
  b : Nat
deriving DecidableEq

/-- Representative stored entity for the generic `IndexedDBStorage`
operations (`create` / `get` / `update` in `indexeddb.ts`): an `id`, the two
timestamps, one scalar payload field, one nested object field, and the
`sync` metadata. -/
structure StRec where
  id : String
  createdAt : Nat
  updatedAt : Nat
  payloadStr : String
  meta : MetaObj
  sync : SyncMeta
deriving DecidableEq

/-- Partial record (`Partial<T>` in `IndexedDBStorage.update`): every field a
caller could supply is optional (`none` = absent/`undefined`).  A patch may
in particular carry a whole `sync` object or an `updatedAt` value, which is
exactly what claim C4 is about. -/
structure StPatch where
  payloadStr : Option String
  meta : Option MetaObj
  updatedAt : Option Nat
  sync : Option SyncMeta
deriving DecidableEq

/-- Error codes of the storage layer (`StorageErrorCodes` in
`src/lib/storage/types.ts`), restricted to the ones the embedded
operations can produce. -/
inductive StorageErrCode where
  | databaseOpenFailed
  | keyNotFound
  | transactionFailed
deriving DecidableEq

/-- Record creation in `IndexedDBStorage.create`: fresh id, both timestamps
set to now, and `sync = {version: 1, syncedAt: undefined, isDeleted: false}`.
The random UUID is abstracted as an explicit `newId` argument. -/
def createRec (payloadStr : String) (meta : MetaObj) (newId : String)
    (now : Nat) : StRec :=
  { id := newId
    createdAt := now
    updatedAt := now
    payloadStr := payloadStr
    meta := meta
    sync := { version := 1, syncedAt := none, isDeleted := some false,
              lastModifiedBy := none } }

/-- Point lookup `IndexedDBStorage.get`: the record whose primary key equals
`i`, if any (`store.get(id)`, i.e. the first and only key match). -/
def getRec (s : List StRec) (i : String) : Option StRec :=
  s.find? (fun r => r.id == i)

/-- Key-preserving write `store.put`: replaces the record stored under the
same primary key, or inserts the record if the key is absent. -/
def putRec : List StRec → StRec → List StRec
  | [], u => [u]
  | r :: rs, u => if r.id == u.id then u :: rs else r :: putRec rs u

/-- Shallow merge performed by `IndexedDBStorage.update`:
`{...current, ...updates, updatedAt: new Date(), sync: {...current.sync,
version: current.sync.version + 1}}`.  Because the explicit `updatedAt` and
`sync` entries come after `...updates` in the object literal, they override
anything the patch provided for those two fields; every other field provided
by the patch replaces the current value wholesale. -/
def mergeUpdate (current : StRec) (p : StPatch) (now : Nat) : StRec :=
  { id := current.id
    createdAt := current.createdAt
    updatedAt := now
    payloadStr := p.payloadStr.getD current.payloadStr
    meta := p.meta.getD current.meta
    sync := { version := current.sync.version + 1
              syncedAt := current.sync.syncedAt
              isDeleted := current.sync.isDeleted
              lastModifiedBy := current.sync.lastModifiedBy } }

/-- Update operation `IndexedDBStorage.update`: read the current record;
if absent, fail with `KEY_NOT_FOUND` before any write happens (the store is
returned unchanged); otherwise merge and `put` the merged record.  The
result carries both the operation outcome and the resulting store. -/
def updateRec (s : List StRec) (i : String) (p : StPatch) (now : Nat) :
    Except StorageErrCode StRec × List StRec :=
  match getRec s i with
  | none => (Except.error StorageErrCode.keyNotFound, s)
  | some cur =>
    let u := mergeUpdate cur p now
    (Except.ok u, putRec s u)

/-- Sequence of `update` calls against the same id, each with its own patch
and timestamp; stops at the first failure. -/
def applyUpdates (s : List StRec) (i : String) :
    List (StPatch × Nat) → Except StorageErrCode (List StRec)
  | [] => Except.ok s
  | (p, now) :: rest =>
    match updateRec s i p now with
    | (Except.ok _, s') => applyUpdates s' i rest
    | (Except.error e, _) => Except.error e

/-- Continue-condition of the cursor loop in `IndexedDBStorage.getAll`:
`cursor && (!options.limit || count < options.limit)`.  A missing limit, or
a limit of `0` (falsy in JavaScript), never stops the loop. -/
def limitOk (limit? : Option Nat) (count : Nat) : Bool :=
  match limit? with
  | none => true
  | some l => l == 0 || decide (count < l)

/-- Push-condition of the cursor loop in `IndexedDBStorage.getAll`:
`!options.offset || count >= options.offset`.  A missing offset, or an
offset of `0` (falsy), pushes every visited record. -/
def offsetOk (offset? : Option Nat) (count : Nat) : Bool :=
  match offset? with
  | none => true
  | some o => o == 0 || decide (o ≤ count)

/-- Cursor loop of `IndexedDBStorage.getAll`: `count` counts every visited
record (pushed or skipped); the loop stops as soon as the limit check on
`count` fails. -/
def getAllAux {α : Type} (limit? offset? : Option Nat) :
    List α → Nat → List α
  | [], _ => []
  | r :: rs, count =>
    if limitOk limit? count then
      (if offsetOk offset? count then [r] else [])
        ++ getAllAux limit? offset? rs (count + 1)
    else []

/-- Retrieval `IndexedDBStorage.getAll`, applied to the ordered sequence of
records the chosen cursor traversal yields (the index/range/direction
options only select which ordered sequence that is, so they are abstracted
into the input list). -/
def getAllList {α : Type} (rs : List α) (limit? offset? : Option Nat) :
    List α :=
  getAllAux limit? offset? rs 0

example : getAllList [10, 11, 12] (some 2) (some 1) = [11] := by decide
example : getAllList [10, 11, 12] (some 2) none = [10, 11] := by decide
example : getAllList [10, 11, 12] none (some 2) = [12] := by decide

/-- Note entity (`Note` in `src/types/models.ts`) as persisted through the
`BrainStorage` facade.  `createNote` always materialises `tags`,
`backlinks`, `isArchived` and `isPinned`, so they are non-optional here;
claim C10 checks exactly that defaulting behaviour. -/
structure BNote where
  id : String
  createdAt : Nat
  updatedAt : Nat
  title : String
  content : String
  tags : List String
  backlinks : List String
  isArchived : Bool
  isPinned : Bool
  sync : SyncMeta
deriving DecidableEq

/-- Tag entity (`Tag` in `src/types/models.ts`) as persisted through
`BrainStorage.createTag`, which materialises `color`, `description` and
`isSystemTag`. -/
structure BTag where
  id : String
  createdAt : Nat
  updatedAt : Nat
  name : String
  color : String
  description : String
  parentId : Option String
  isSystemTag : Bool
  sync : SyncMeta
deriving DecidableEq

/-- Backlink entity (`Backlink` in `src/types/models.ts`); the nested
`position {start, end}` object is flattened into two fields. -/
structure BLink where
  id : String
  createdAt : Nat
  updatedAt : Nat
  sourceNoteId : String
  targetNoteId : String
  linkType : String
  context : String
  posStart : Nat
  posEnd : Nat
  sync : SyncMeta
deriving DecidableEq

/-- Database state of `BrainStorage` (`BrainDB`): the three object stores,
each in cursor traversal order, plus the fresh-id counter abstracting
`crypto.randomUUID()`. -/
structure DB where
  notes : List BNote
  tags : List BTag
  backlinks : List BLink
  fresh : Nat
deriving DecidableEq

/-- Fresh primary key for the next created entity. -/
def freshId (db : DB) : String := "uuid-" ++ toString db.fresh

/-- Input of `BrainStorage.createNote` (`Omit<Note, generated fields>`);
the four defaultable fields are optional exactly as in the TypeScript type. -/
structure NoteInput where
  title : String
  content : String
  tags : Option (List String)
  backlinks : Option (List String)
  isArchived : Option Bool
  isPinned : Option Bool
deriving DecidableEq

/-- Facade note creation `BrainStorage.createNote`: defaults
`tags: noteData.tags || []`, `backlinks: noteData.backlinks || []`,
`isArchived: noteData.isArchived || false`, `isPinned: noteData.isPinned ||
false`, then delegates to the generic `create` (fresh id, timestamps,
`sync.version = 1`).  For these field types `|| default` agrees with
`Option.getD` (a present array is truthy even when empty; `false || false`
is `false`). -/
def createNote (db : DB) (inp : NoteInput) (now : Nat) : BNote × DB :=
  let n : BNote :=
    { id := freshId db
      createdAt := now
      updatedAt := now
      title := inp.title
      content := inp.content
      tags := inp.tags.getD []
      backlinks := inp.backlinks.getD []
      isArchived := inp.isArchived.getD false
      isPinned := inp.isPinned.getD false
      sync := { version := 1, syncedAt := none, isDeleted := some false,
                lastModifiedBy := none } }
  (n, { db with notes := db.notes ++ [n], fresh := db.fresh + 1 })

/-- Lookup `BrainStorage.getNote` (primary-key `get` on the notes store). -/
def getNoteDB (db : DB) (i : String) : Option BNote :=
  db.notes.find? (fun n => n.id == i)

/-- Patch type of `BrainStorage.updateNote`
(`Partial<Omit<Note, 'id' | 'createdAt' | 'sync'>>`). -/
structure NotePatch where
  title : Option String
  content : Option String
  tags : Option (List String)
  backlinks : Option (List String)
  isArchived : Option Bool
  isPinned : Option Bool
deriving DecidableEq

/-- Patch that only sets `content`, as built at the rename call site
`storage.updateNote(sourceNote.id, { content: updatedContent })`. -/
def contentPatch (c : String) : NotePatch :=
  { title := none, content := some c, tags := none, backlinks := none,
    isArchived := none, isPinned := none }

/-- Patch that only sets `tags`, as built at the tag-sync call site
`storage.updateNote(noteId, { tags: tagIds })`. -/
def tagsPatch (ts : List String) : NotePatch :=
  { title := none, content := none, tags := some ts, backlinks := none,
    isArchived := none, isPinned := none }

/-- Shallow merge of `IndexedDBStorage.update` specialised to notes:
patch fields replace current fields; `updatedAt` is set to now and
`sync.version` is incremented. -/
def mergeNote (cur : BNote) (p : NotePatch) (now : Nat) : BNote :=
  { cur with
    title := p.title.getD cur.title
    content := p.content.getD cur.content
    tags := p.tags.getD cur.tags
    backlinks := p.backlinks.getD cur.backlinks
    isArchived := p.isArchived.getD cur.isArchived
    isPinned := p.isPinned.getD cur.isPinned
    updatedAt := now
    sync := { cur.sync with version := cur.sync.version + 1 } }

/-- Key-preserving `put` on the notes store. -/
def putNote : List BNote → BNote → List BNote
  | [], u => [u]
  | n :: ns, u => if n.id == u.id then u :: ns else n :: putNote ns u

/-- Facade update `BrainStorage.updateNote`, which delegates to the generic
`update`: `KeyNotFound` (and no state change) when the id is absent,
otherwise merge and put. -/
def updateNoteDB (db : DB) (i : String) (p : NotePatch) (now : Nat) :
    Except StorageErrCode (BNote × DB) :=
  match getNoteDB db i with
  | none => Except.error StorageErrCode.keyNotFound
  | some cur =>
    let u := mergeNote cur p now
    Except.ok (u, { db with notes := putNote db.notes u })

/-- Input of `BrainStorage.createTag`. -/
structure TagInput where
  name : String
  color : Option String
  description : Option String
  parentId : Option String
  isSystemTag : Option Bool
deriving DecidableEq

/-- JavaScript `value || fallback` for optional strings: an absent or empty
(falsy) string yields the fallback. -/
def jsOrStr (v : Option String) (fallback : String) : String :=
  match v with
  | none => fallback
  | some s => if s == "" then fallback else s

/-- JavaScript `parentId || undefined`: an absent or empty string becomes
`undefined`. -/
def jsOrUndef (v : Option String) : Option String :=
  match v with
  | none => none
  | some s => if s == "" then none else some s

/-- Exact-match predicate used by the duplicate check in
`BrainStorage.createTag` and by `getTagByName`: both query the `name` index
with `IDBKeyRange.only(name)`, which compares keys exactly
(case-sensitively). -/
def tagNameMatches (nm : String) (t : BTag) : Bool := t.name == nm

/-- Facade tag creation `BrainStorage.createTag`: query the `name` index for
an exact match; if any record matches, return the first one and change
nothing; otherwise create a new tag with the defaulted fields and
`sync.version = 1`. -/
def createTag (db : DB) (inp : TagInput) (now : Nat) : BTag × DB :=
  match db.tags.filter (tagNameMatches inp.name) with
  | t :: _ => (t, db)
  | [] =>
    let t : BTag :=
      { id := freshId db
        createdAt := now
        updatedAt := now
        name := inp.name
        color := jsOrStr inp.color "#3b82f6"
        description := jsOrStr inp.description ""
        parentId := jsOrUndef inp.parentId
        isSystemTag := inp.isSystemTag.getD false
        sync := { version := 1, syncedAt := none, isDeleted := some false,
                  lastModifiedBy := none } }
    (t, { db with tags := db.tags ++ [t], fresh := db.fresh + 1 })

/-- Lookup `BrainStorage.getTagByName`: exact-key query on the `name` index,
first result or `null`. -/
def getTagByName (db : DB) (nm : String) : Option BTag :=
  match db.tags.filter (tagNameMatches nm) with
  | t :: _ => some t
  | [] => none

/-- Input of `BrainStorage.createBacklink`. -/
structure BLinkInput where
  sourceNoteId : String
  targetNoteId : String
  linkType : String
  context : String
  posStart : Nat
  posEnd : Nat
deriving DecidableEq

/-- Facade backlink creation `BrainStorage.createBacklink`, delegating to the
generic `create`. -/
def createBacklink (db : DB) (inp : BLinkInput) (now : Nat) : BLink × DB :=
  let b : BLink :=
    { id := freshId db
      createdAt := now
      updatedAt := now
      sourceNoteId := inp.sourceNoteId
      targetNoteId := inp.targetNoteId
      linkType := inp.linkType
      context := inp.context
      posStart := inp.posStart
      posEnd := inp.posEnd
      sync := { version := 1, syncedAt := none, isDeleted := some false,
                lastModifiedBy := none } }
  (b, { db with backlinks := db.backlinks ++ [b], fresh := db.fresh + 1 })

/-- Deletion `BrainStorage.deleteBacklink` (primary-key delete). -/
def deleteBacklink (db : DB) (i : String) : DB :=
  { db with backlinks := db.backlinks.filter (fun b => b.id != i) }

/-- Query `BrainStorage.getBacklinksForNote`: the records matching the
`sourceNoteId` index concatenated with the records matching the
`targetNoteId` index (`[...sourceBacklinks, ...targetBacklinks]`). -/
def getBacklinksForNote (db : DB) (noteId : String) : List BLink :=
  db.backlinks.filter (fun b => b.sourceNoteId == noteId)
    ++ db.backlinks.filter (fun b => b.targetNoteId == noteId)

/-- Lowercasing of a character list (JavaScript `toLowerCase` on the ASCII
inputs used here). -/
def toLowerChars (cs : List Char) : List Char := cs.map Char.toLower

/-- Exact prefix test on character lists. -/
def startsWithCS : List Char → List Char → Bool
  | [], _ => true
  | _ :: _, [] => false
  | p :: ps, c :: cs => p == c && startsWithCS ps cs

/-- Exact substring test on character lists (JavaScript
`String.prototype.includes`; the empty pattern is contained everywhere). -/
def containsCS (pat : List Char) : List Char → Bool
  | [] => startsWithCS pat []
  | c :: cs => startsWithCS pat (c :: cs) || containsCS pat cs

/-- Lookup `findNoteByTitle` in `src/lib/backlinks.ts`: first the note whose
lowercased title equals the lowercased search term exactly, then (fallback)
the first note whose lowercased title contains the lowercased search term
as a substring, else `null`. -/
def findNoteByTitle (db : DB) (title : String) : Option BNote :=
  let tl := toLowerChars title.toList
  match db.notes.find? (fun n => toLowerChars n.title.toList == tl) with
  | some n => some n
  | none => db.notes.find? (fun n => containsCS tl (toLowerChars n.title.toList))

/-- Character class of the hashtag pattern `/#([a-zA-Z0-9_-]+)/g` in
`extractTagsFromContent`: ASCII letters, digits, underscore, hyphen. -/
def isTagChar (c : Char) : Bool :=
  c.isAlpha || c.isDigit || c == '_' || c == '-'

/-- Scanner for the global regex loop of `extractTagsFromContent`: at each
position, a `#` followed by at least one tag character yields the maximal
run of tag characters as a match; the match is lowercased and appended
unless already collected (`tags.includes`), and scanning resumes after the
match, mirroring `lastIndex` advancement of a global `exec` loop.  The
structural `fuel` argument only ensures termination: every step consumes at
least one character, so with `fuel = s.length` it never runs out. -/
def extractTagsAux : Nat → List Char → List String → List String
  | 0, _, acc => acc
  | _ + 1, [], acc => acc
  | fuel + 1, c :: cs, acc =>
    if c == '#' && !(cs.takeWhile isTagChar).isEmpty then
      let tg := String.mk (toLowerChars (cs.takeWhile isTagChar))
      extractTagsAux fuel (cs.dropWhile isTagChar)
        (if acc.contains tg then acc else acc ++ [tg])
    else extractTagsAux fuel cs acc

/-- Hashtag extraction `extractTagsFromContent` in the tag utilities:
lowercased hashtag names in order of first appearance, duplicates
collapsed. -/
def extractTagsFromContent (content : String) : List String :=
  extractTagsAux content.toList.length content.toList []

example : extractTagsFromContent "Ideas about #work and #Work" = ["work"] :=
  by decide

example :
    extractTagsFromContent "a #b-2 c #B-2 #work_x ##d" = ["b-2", "work_x", "d"] :=
  by decide

/-- Resolution loop of `syncTagsForNote`: for each extracted name, look the
tag up by (exact) name and create it when absent, collecting the tag ids in
order.  The random palette colour of `getRandomTagColor` is abstracted by
the `palette` function applied to the fresh-id counter at creation time. -/
def resolveTags (db : DB) (names : List String) (now : Nat)
    (palette : Nat → String) : List String × DB :=
  match names with
  | [] => ([], db)
  | nm :: rest =>
    let step : String × DB :=
      match getTagByName db nm with
      | some t => (t.id, db)
      | none =>
        let c := createTag db
          { name := nm, color := some (palette db.fresh), description := none,
            parentId := none, isSystemTag := none } now
        (c.1.id, c.2)
    let restRes := resolveTags step.2 rest now palette
    (step.1 :: restRes.1, restRes.2)

/-- Composite operation `syncTagsForNote` in the tag utilities: extract the
hashtag names, resolve each by find-or-create, then replace the note's
`tags` field wholesale via `updateNote(noteId, { tags: tagIds })`.  When the
note does not exist the final update rejects and the (already-performed)
tag creations remain. -/
def syncTagsForNote (db : DB) (noteId content : String) (now : Nat)
    (palette : Nat → String) : Except StorageErrCode (List String) × DB :=
  let names := extractTagsFromContent content
  let res := resolveTags db names now palette
  match updateNoteDB res.2 noteId (tagsPatch res.1) now with
  | Except.ok d => (Except.ok res.1, d.2)
  | Except.error e => (Except.error e, res.2)

/-- Wiki link occurrence as extracted by `extractWikiLinksFromContent`:
trimmed inner title, character span, and ±50 characters of context. -/
structure WikiLink where
  title : String
  posStart : Nat
  posEnd : Nat
  context : String
deriving DecidableEq

/-- JavaScript whitespace as trimmed by `String.prototype.trim`, restricted
to its ASCII members (the only ones appearing in our inputs). -/
def isJsSpace (c : Char) : Bool :=
  c == ' ' || c == '\t' || c == '\n' || c == '\r' || c == '\x0b' || c == '\x0c'

/-- Trim of both ends (JavaScript `trim`). -/
def trimChars (cs : List Char) : List Char :=
  ((cs.dropWhile isJsSpace).reverse.dropWhile isJsSpace).reverse

/-- Index of the first `]` in a character list (`cs.length` when absent). -/
def findCloseIdx (cs : List Char) : Nat := cs.findIdx (fun c => c == ']')

/-- Match attempt of the wiki-link regex `/\[\[([^\]]+)\]\]/g` at the head of
the input: succeeds when the input starts with `[[`, at least one non-`]`
character follows, and the run of non-`]` characters is closed by `]]`.
Returns the inner character run and the total match length. -/
def wikiHead (s : List Char) : Option (List Char × Nat) :=
  match s with
  | c1 :: c2 :: rest =>
    if c1 == '[' && c2 == '[' then
      let k := findCloseIdx rest
      if 0 < k && rest.get? (k + 1) == some ']' then
        some (rest.take k, k + 4)
      else none
    else none
  | _ => none

/-- Context slice of `extractWikiLinksFromContent`:
`content.substring(max(0, start - 50), min(content.length, end + 50))`. -/
def wikiCtx (orig : List Char) (st en : Nat) : String :=
  let cs := st - 50
  let ce := min orig.length (en + 50)
  String.mk ((orig.drop cs).take (ce - cs))

/-- Scanner for the global regex loop of `extractWikiLinksFromContent`:
either a wiki link starts at the current position (collect it and resume
after the match) or scanning advances one character, mirroring the restart
behaviour of a global `exec` loop.  As in `extractTagsAux`, `fuel` is a
structural termination device and never runs out when initialised with the
content length. -/
def extractWikiAux (orig : List Char) : Nat → List Char → Nat → List WikiLink
  | 0, _, _ => []
  | _ + 1, [], _ => []
  | fuel + 1, c :: cs, i =>
    match wikiHead (c :: cs) with
    | some p =>
      { title := String.mk (trimChars p.1)
        posStart := i
        posEnd := i + p.2
        context := wikiCtx orig i (i + p.2) }
        :: extractWikiAux orig fuel ((c :: cs).drop p.2) (i + p.2)
    | none => extractWikiAux orig fuel cs (i + 1)

/-- Wiki-link extraction `extractWikiLinksFromContent` in
`src/lib/backlinks.ts`. -/
def extractWikiLinksFromContent (content : String) : List WikiLink :=
  extractWikiAux content.toList content.toList.length content.toList 0

example :
    (extractWikiLinksFromContent "go [[ Alpha ]] and [[beta]]").map WikiLink.title
      = ["Alpha", "beta"] := by decide

example : extractWikiLinksFromContent "[[]] [[a]b]]" = [] := by decide

/-- Teardown `removeBacklinksFromNote` in `src/lib/backlinks.ts`: fetch
`getBacklinksForNote(noteId)` (source OR target matches) and delete every
returned record by id. -/
def removeBacklinksFromNote (db : DB) (noteId : String) : DB :=
  (getBacklinksForNote db noteId).foldl (fun d b => deleteBacklink d b.id) db

/-- Creation phase of `syncBacklinksForNote`: for each extracted wiki link,
resolve the target note by title and, when found, create a `wiki` backlink
with the link's context and position. -/
def createBacklinksFor (db : DB) (noteId : String) (links : List WikiLink)
    (now : Nat) : DB :=
  links.foldl
    (fun d link =>
      match findNoteByTitle d link.title with
      | some target =>
        (createBacklink d
          { sourceNoteId := noteId, targetNoteId := target.id,
            linkType := "wiki", context := link.context,
            posStart := link.posStart, posEnd := link.posEnd } now).2
      | none => d)
    db

/-- Composite operation `syncBacklinksForNote` in `src/lib/backlinks.ts`:
extract the wiki links, tear down via `removeBacklinksFromNote`, then create
the new backlinks. -/
def syncBacklinksForNote (db : DB) (noteId content : String) (now : Nat) :
    DB :=
  let links := extractWikiLinksFromContent content
  let db1 := removeBacklinksFromNote db noteId
  createBacklinksFor db1 noteId links now

/-- Token of the regular-expression fragment exercised by
`updateBacklinksOnNoteRename`, which builds its pattern by raw string
interpolation: `new RegExp('\\[\\[' + oldTitle + '\\]\\]', 'gi')`.  A title
character is compiled to a literal token, except `.` which is the
any-character metacharacter. -/
inductive RTok where
  | lit (c : Char)
  | dot
deriving DecidableEq

/-- Regular-expression metacharacters (plus the backslash) outside character
classes.  Titles containing any of these (other than `.`, handled
separately, and identity escapes) fall outside the modelled fragment. -/
def regexMeta (c : Char) : Bool :=
  c == '.' || c == '*' || c == '+' || c == '?' || c == '(' || c == ')' ||
  c == '[' || c == ']' || c == '\x7b' || c == '\x7d' || c == '^' ||
  c == '$' || c == '|' || c == '\\'

/-- Compilation of an interpolated title into pattern tokens, faithful to
the JavaScript regex semantics on the modelled fragment: plain characters
are literals, `.` is the wildcard, a backslash followed by a
non-alphanumeric character is an identity escape.  Constructs outside the
fragment (quantifiers, groups, classes, alternation, class escapes such as
`\d`, a trailing backslash) are declined with `none`; every theorem about
the rename operation hypothesises a successfully compiled pattern. -/
def compileTitle : List Char → Option (List RTok)
  | [] => some []
  | c :: rest =>
    if c == '\\' then
      match rest with
      | [] => none
      | d :: rest' =>
        if d.isAlphanum then none
        else (compileTitle rest').map (fun ts => RTok.lit d :: ts)
    else if c == '.' then (compileTitle rest).map (fun ts => RTok.dot :: ts)
    else if regexMeta c then none
    else (compileTitle rest).map (fun ts => RTok.lit c :: ts)

/-- Full pattern of the rename scan: `\[\[` and `\]\]` are identity escapes
for literal brackets around the compiled title. -/
def titlePattern (title : String) : Option (List RTok) :=
  (compileTitle title.toList).map
    (fun ts => RTok.lit '[' :: RTok.lit '[' :: (ts ++ [RTok.lit ']', RTok.lit ']']))

/-- Token-versus-character match under the `i` flag: literals compare
case-insensitively; the wildcard matches everything except line
terminators. -/
def tokMatches : RTok → Char → Bool
  | RTok.lit c, x => c.toLower == x.toLower
  | RTok.dot, x => x != '\n' && x != '\r'

/-- Match of a token sequence against a prefix of the input. -/
def frontMatch : List RTok → List Char → Bool
  | [], _ => true
  | _ :: _, [] => false
  | t :: ts, c :: cs => tokMatches t c && frontMatch ts cs

/-- Existence of a match anywhere in the input
(`RegExp.prototype.test`). -/
def regexTest (p : List RTok) : List Char → Bool
  | [] => frontMatch p []
  | c :: cs => frontMatch p (c :: cs) || regexTest p cs

/-- Global replacement of every (leftmost, non-overlapping) match of the
nonempty token sequence `p0 :: ps` by `repl`
(`String.prototype.replace` with a `g`-flagged regex; the pattern is of
fixed length, so leftmost non-overlapping scanning is exact).  `fuel` is a
structural termination device: every step consumes at least one character,
so `fuel = s.length` never runs out. -/
def replaceScan (p0 : RTok) (ps : List RTok) (repl : List Char) :
    Nat → List Char → List Char
  | 0, s => s
  | _ + 1, [] => []
  | fuel + 1, c :: cs =>
    if frontMatch (p0 :: ps) (c :: cs) then
      repl ++ replaceScan p0 ps repl fuel (cs.drop ps.length)
    else c :: replaceScan p0 ps repl fuel cs

/-- Replacement entry point used by the rename loop.  The empty-pattern arm
is unreachable: `titlePattern` always yields at least the four bracket
literals. -/
def regexReplaceAll (p : List RTok) (repl : List Char) (s : List Char) :
    List Char :=
  match p with
  | [] => s
  | p0 :: ps => replaceScan p0 ps repl s.length s

/-- Replacement text `'[[' + newTitle + ']]'` of the rename loop, modelled
literally (faithful whenever `newTitle` contains no `$` substitution
pattern). -/
def renameReplacement (newTitle : String) : List Char :=
  '[' :: '[' :: (newTitle.toList ++ [']', ']'])

/-- Loop body sequence of `updateBacklinksOnNoteRename`: iterate over the
snapshot of all notes; skip the renamed note itself; per iteration construct
the regex (an invalid construction rejects the whole operation, modelled by
`transactionFailed`, and can only happen for titles outside the modelled
fragment); when the content tests positive, rewrite it, persist it via
`updateNote` and re-run `syncBacklinksForNote` on the rewritten content. -/
def renameFold (rid : String) (oldTitle : String) (repl : List Char)
    (now : Nat) : DB → List BNote → Except StorageErrCode DB
  | db, [] => Except.ok db
  | db, sn :: rest =>
    if sn.id == rid then renameFold rid oldTitle repl now db rest
    else
      match titlePattern oldTitle with
      | none => Except.error StorageErrCode.transactionFailed
      | some p =>
        if regexTest p sn.content.toList then
          let newContent := String.mk (regexReplaceAll p repl sn.content.toList)
          match updateNoteDB db sn.id (contentPatch newContent) now with
          | Except.error e => Except.error e
          | Except.ok d =>
            renameFold rid oldTitle repl now
              (syncBacklinksForNote d.2 sn.id newContent now) rest
        else renameFold rid oldTitle repl now db rest

/-- Rename propagation `updateBacklinksOnNoteRename` in
`src/lib/backlinks.ts`: locate the note carrying the old title (silently a
no-op when absent), then run the rewrite loop over the snapshot of all
notes. -/
def updateBacklinksOnNoteRename (db : DB) (oldTitle newTitle : String)
    (now : Nat) : Except StorageErrCode DB :=
  match findNoteByTitle db oldTitle with
  | none => Except.ok db
  | some note =>
    renameFold note.id oldTitle (renameReplacement newTitle) now db db.notes

/-- Page window asserted by the specification claim for `getAll` with both
an offset and a limit: skip `o` records, then return up to `l` records
(`r_o .. r_{min(o+l,N)-1}`). -/
def claimedPage {α : Type} (rs : List α) (o l : Nat) : List α :=
  (rs.drop o).take l

/-- Closed form of the cursor loop with a positive limit and an offset:
the loop visits only the first `l - count` records and keeps those visited
at positions at least `o - count`. -/
theorem getAllAux_both {α : Type} (l o : Nat) (hl : 0 < l) :
    ∀ (rs : List α) (count : Nat),
      getAllAux (some l) (some o) rs count = (rs.take (l - count)).drop (o - count) := by
  intro rs
  induction rs with
  | nil => intro count; simp [getAllAux]
  | cons r rs ih =>
    intro count
    simp only [getAllAux, limitOk, offsetOk]
    by_cases hc : count < l
    · have hne : (l == 0) = false := by
        simp only [beq_eq_false_iff_ne, ne_eq]
        omega
      have hdec : decide (count < l) = true := by simp [hc]
      simp only [hne, hdec, Bool.or_true, if_true]
      by_cases ho : o ≤ count
      · have h0 : (o - count) = 0 := by omega
        have hpush : (o == 0 || decide (o ≤ count)) = true := by
          simp [ho]
        have htk : l - count = (l - (count + 1)) + 1 := by omega
        simp only [hpush, if_true, ih (count + 1), h0, List.drop_zero]
        rw [htk]
        simp only [List.take_succ_cons, List.cons_append, List.nil_append]
        have h0' : (o - (count + 1)) = 0 := by omega
        simp [h0']
      · have hpush : (o == 0 || decide (o ≤ count)) = false := by
          have : ¬ (o = 0) := by omega
          simp [ho, this]
        have htk : l - count = (l - (count + 1)) + 1 := by omega
        have hdr : o - count = (o - (count + 1)) + 1 := by omega
        simp only [hpush, if_false, ih (count + 1), List.nil_append]
        rw [htk, hdr]
        simp [List.take_succ_cons]
    · have hstop : (l == 0 || decide (count < l)) = false := by
        simp only [Bool.or_eq_false_iff, beq_eq_false_iff_ne, ne_eq,
          decide_eq_false_iff_not]
        omega
      have htk : l - count = 0 := by omega
      simp [hstop, htk]

/-- Closed form of the cursor loop with only a positive limit: the first
`l - count` records. -/
theorem getAllAux_limit {α : Type} (l : Nat) (hl : 0 < l) :
    ∀ (rs : List α) (count : Nat),
      getAllAux (some l) none rs count = rs.take (l - count) := by
  intro rs
  induction rs with
  | nil => intro count; simp [getAllAux]
  | cons r rs ih =>
    intro count
    simp only [getAllAux, limitOk, offsetOk]
    by_cases hc : count < l
    · have hne : (l == 0) = false := by
        simp only [beq_eq_false_iff_ne, ne_eq]
        omega
      have htk : l - count = (l - (count + 1)) + 1 := by omega
      have hdec : decide (count < l) = true := by simp [hc]
      simp only [hne, hdec, Bool.or_true, if_true, ih (count + 1)]
      rw [htk]
      simp [List.take_succ_cons]
    · have hstop : (l == 0 || decide (count < l)) = false := by
        simp only [Bool.or_eq_false_iff, beq_eq_false_iff_ne, ne_eq,
          decide_eq_false_iff_not]
        omega
      have htk : l - count = 0 := by omega
      simp [hstop, htk]

/-- Closed form of the cursor loop with only an offset: everything from
position `o - count` on. -/
theorem getAllAux_offset {α : Type} (o : Nat) :
    ∀ (rs : List α) (count : Nat),
      getAllAux none (some o) rs count = rs.drop (o - count) := by
  intro rs
  induction rs with
  | nil => intro count; simp [getAllAux]
  | cons r rs ih =>
    intro count
    simp only [getAllAux, limitOk, offsetOk, if_true]
    by_cases ho : o ≤ count
    · have hpush : (o == 0 || decide (o ≤ count)) = true := by simp [ho]
      have h0 : o - count = 0 := by omega
      have h0' : o - (count + 1) = 0 := by omega
      simp [hpush, ih (count + 1), h0, h0']
    · have hpush : (o == 0 || decide (o ≤ count)) = false := by
        have : ¬ (o = 0) := by omega
        simp [ho, this]
      have hdr : o - count = (o - (count + 1)) + 1 := by omega
      simp only [hpush, if_false, ih (count + 1), List.nil_append]
      rw [hdr]
      simp

/-- Claim C2 fails on the code: on the traversal `[10, 11, 12]` with offset
1 and limit 2 the loop returns only `[11]` (the skipped record counts
against the limit), while the claimed window `r_1 .. r_2` is `[11, 12]`. -/
theorem C2_counterexample :
    getAllList [10, 11, 12] (some 2) (some 1) = [11] ∧
    claimedPage [10, 11, 12] 1 2 = [11, 12] ∧
    getAllList [10, 11, 12] (some 2) (some 1) ≠ claimedPage [10, 11, 12] 1 2 := by
  decide

/-- Claim C2, amended: with a positive offset `o` and a positive limit `l`,
`GetAll` visits only the first `l` records of the ordered traversal and
returns those at positions `o` and beyond (so at most `l - o` records: the
offset is counted against the limit, not skipped before it); with only a
positive limit it returns the first `l` records, and with only an offset it
returns all records from position `o` onward (an offset or limit of `0` is
treated as unset). -/
theorem C2_getAll_pagination {α : Type} (rs : List α) (o l : Nat)
    (ho : 0 < o) (hl : 0 < l) :
    getAllList rs (some l) (some o) = (rs.take l).drop o ∧
    getAllList rs (some l) none = rs.take l ∧
    getAllList rs none (some o) = rs.drop o := by
  refine ⟨?_, ?_, ?_⟩
  · rw [getAllList, getAllAux_both l o hl rs 0]
    simp
  · rw [getAllList, getAllAux_limit l hl rs 0]
    simp
  · rw [getAllList, getAllAux_offset o rs 0]
    simp

/-- Witness for the amended C2 theorem at a concrete traversal. -/
theorem C2_getAll_pagination_witness :
    getAllList [10, 11, 12] (some 2) (some 1) = ([10, 11, 12].take 2).drop 1 ∧
    getAllList [10, 11, 12] (some 2) none = [10, 11, 12].take 2 ∧
    getAllList [10, 11, 12] none (some 1) = [10, 11, 12].drop 1 :=
  C2_getAll_pagination [10, 11, 12] 1 2 (by decide) (by decide)

/-- Record used by the C4 counterexample. -/
def curRec4 : StRec :=
  { id := "r1", createdAt := 0, updatedAt := 0, payloadStr := "p",
    meta := { a := 1, b := 2 },
    sync := { version := 5, syncedAt := some 7, isDeleted := some true,
              lastModifiedBy := some "dev" } }

/-- Sync object supplied by the C4 counterexample patch. -/
def patchSync4 : SyncMeta :=
  { version := 42, syncedAt := none, isDeleted := some false,
    lastModifiedBy := none }

/-- Patch used by the C4 counterexample: it provides a whole nested `sync`
object (and an `updatedAt`). -/
def patch4 : StPatch :=
  { payloadStr := none, meta := none, updatedAt := some 99,
    sync := some patchSync4 }

/-- Claim C4 fails on the code: updating `curRec4` with a patch that carries
the nested sync object `patchSync4` does not persist that object wholesale.
The update's object literal writes its own `sync` field after spreading the
patch, so the persisted sync is the current record's sync with the version
bumped (6, syncedAt 7, isDeleted true, device "dev"), not the caller's
object. -/
theorem C4_counterexample :
    ((updateRec [curRec4] "r1" patch4 10).1.toOption.map StRec.sync) =
      some { version := 6, syncedAt := some 7, isDeleted := some true,
             lastModifiedBy := some "dev" } ∧
    patch4.sync = some patchSync4 ∧
    ((updateRec [curRec4] "r1" patch4 10).1.toOption.map StRec.sync) ≠
      some patchSync4 := by
  decide

/-- Claim C4, amended: the merge of `Update` is shallow for every field
except the two the implementation overrides after spreading the patch —
a provided nested non-`sync` object (here `meta`) replaces the stored
object wholesale, but a provided `sync` object (and a provided `updatedAt`)
is discarded entirely: the persisted sync is always the current record's
sync with only the version incremented, and the persisted `updatedAt` is
the operation time. -/
theorem C4_update_shallow_merge (s : List StRec) (i : String) (p : StPatch)
    (now : Nat) (cur : StRec) (h : getRec s i = some cur) :
    ∃ u, updateRec s i p now = (Except.ok u, putRec s u) ∧
      u.sync = { version := cur.sync.version + 1,
                 syncedAt := cur.sync.syncedAt,
                 isDeleted := cur.sync.isDeleted,
                 lastModifiedBy := cur.sync.lastModifiedBy } ∧
      u.meta = p.meta.getD cur.meta ∧
      u.payloadStr = p.payloadStr.getD cur.payloadStr ∧
      u.updatedAt = now ∧
      (∀ s' t', updateRec s i { p with sync := s', updatedAt := t' } now =
        updateRec s i p now) := by
  refine ⟨mergeUpdate cur p now, ?_, rfl, rfl, rfl, rfl, ?_⟩
  · rw [updateRec, h]
  · intro s' t'
    simp [updateRec, h, mergeUpdate]

/-- Witness for the amended C4 theorem at the concrete counterexample
input. -/
theorem C4_update_shallow_merge_witness :
    ∃ u, updateRec [curRec4] "r1" patch4 10 = (Except.ok u, putRec [curRec4] u) ∧
      u.sync = { version := curRec4.sync.version + 1,
                 syncedAt := curRec4.sync.syncedAt,
                 isDeleted := curRec4.sync.isDeleted,
                 lastModifiedBy := curRec4.sync.lastModifiedBy } ∧
      u.meta = patch4.meta.getD curRec4.meta ∧
      u.payloadStr = patch4.payloadStr.getD curRec4.payloadStr ∧
      u.updatedAt = 10 ∧
      (∀ s' t', updateRec [curRec4] "r1" { patch4 with sync := s', updatedAt := t' } 10 =
        updateRec [curRec4] "r1" patch4 10) :=
  C4_update_shallow_merge [curRec4] "r1" patch4 10 curRec4 (by decide)

/-- Membership in a store after a key-preserving `put`: looking up the
written record's own key always yields the written record. -/
theorem getRec_putRec_self (s : List StRec) (u : StRec) :
    getRec (putRec s u) u.id = some u := by
  induction s with
  | nil => simp [getRec, putRec, List.find?]
  | cons r rs ih =>
    by_cases h : r.id = u.id
    · simp [getRec, putRec, h, List.find?]
    · have hb : (r.id == u.id) = false := by simp [h]
      simp only [putRec, hb, if_false]
      simp only [getRec, List.find?, hb]
      exact ih

/-- Identification of a fetched record's key: `get` only returns records
stored under the requested key. -/
theorem getRec_id {s : List StRec} {i : String} {r : StRec}
    (h : getRec s i = some r) : r.id = i := by
  have := List.find?_some h
  simpa using this

/-- Version growth along a chain of successful updates: each update adds
exactly one to the stored version. -/
theorem applyUpdates_version :
    ∀ (ps : List (StPatch × Nat)) (s : List StRec) (i : String) (r : StRec)
      (s' : List StRec),
      getRec s i = some r → applyUpdates s i ps = Except.ok s' →
      ∃ r', getRec s' i = some r' ∧
        r'.sync.version = r.sync.version + ps.length := by
  intro ps
  induction ps with
  | nil =>
    intro s i r s' hget happ
    simp only [applyUpdates] at happ
    cases happ
    exact ⟨r, hget, by simp⟩
  | cons pn rest ih =>
    intro s i r s' hget happ
    obtain ⟨p, now⟩ := pn
    simp only [applyUpdates, updateRec, hget] at happ
    have hid : (mergeUpdate r p now).id = i := by
      have := getRec_id hget
      simp [mergeUpdate, this]
    have hget2 : getRec (putRec s (mergeUpdate r p now)) i =
        some (mergeUpdate r p now) := by
      rw [← hid]
      exact getRec_putRec_self s (mergeUpdate r p now)
    obtain ⟨r', hg, hv⟩ := ih _ i (mergeUpdate r p now) s' hget2 happ
    refine ⟨r', hg, ?_⟩
    simp only [hv, mergeUpdate, List.length_cons]
    omega

/-- Claim C6 (confirmed): `Create` stores `sync.version = 1`; every
successful `Update` increments the stored version by exactly one regardless
of the patch; hence after `N` successful updates of a freshly created
record the stored version is `1 + N` — the version never decreases and is
never reset. -/
theorem C6_version_monotone :
    (∀ pay m nid now, (createRec pay m nid now).sync.version = 1) ∧
    (∀ s i p now u s', updateRec s i p now = (Except.ok u, s') →
      ∃ cur, getRec s i = some cur ∧
        u.sync.version = cur.sync.version + 1) ∧
    (∀ pay m i now ps s',
      applyUpdates [createRec pay m i now] i ps = Except.ok s' →
      ∃ r, getRec s' i = some r ∧ r.sync.version = 1 + ps.length) := by
  refine ⟨fun pay m nid now => rfl, ?_, ?_⟩
  · intro s i p now u s' h
    cases hget : getRec s i with
    | none => simp [updateRec, hget] at h
    | some cur =>
      refine ⟨cur, rfl, ?_⟩
      simp only [updateRec, hget, Prod.mk.injEq] at h
      obtain ⟨h1, h2⟩ := h
      cases h1
      rfl
  · intro pay m i now ps s' happ
    have hget : getRec [createRec pay m i now] i = some (createRec pay m i now) := by
      simp [getRec, createRec, List.find?]
    obtain ⟨r, hg, hv⟩ := applyUpdates_version ps _ i _ s' hget happ
    exact ⟨r, hg, by simpa [createRec, Nat.add_comm] using hv⟩

/-- Empty patch used by witnesses. -/
def emptyPatch : StPatch :=
  { payloadStr := none, meta := none, updatedAt := none, sync := none }

/-- Witness for C6: a freshly created record taken through two successful
updates ends at version 3. -/
theorem C6_version_monotone_witness :
    ∃ r, getRec ((applyUpdates [createRec "p" { a := 0, b := 0 } "a" 0] "a"
        [(emptyPatch, 1), (patch4, 2)]).toOption.getD []) "a" = some r ∧
      r.sync.version = 1 + 2 :=
  C6_version_monotone.2.2 "p" { a := 0, b := 0 } "a" 0
    [(emptyPatch, 1), (patch4, 2)] _ rfl

/-- Claim C7 (confirmed): `Update` on an id absent from the store fails with
`KeyNotFound` and returns the store exactly as it was — the failure happens
on the read, before any write, so no record is inserted, modified or
deleted (and the operation's transaction is scoped to the one store it
touches, so no other collection changes either). -/
theorem C7_update_missing_key (s : List StRec) (i : String) (p : StPatch)
    (now : Nat) (h : getRec s i = none) :
    updateRec s i p now = (Except.error StorageErrCode.keyNotFound, s) := by
  rw [updateRec, h]

/-- Witness for C7 on a concrete store missing the requested key. -/
theorem C7_update_missing_key_witness :
    updateRec [curRec4] "zz" emptyPatch 3 =
      (Except.error StorageErrCode.keyNotFound, [curRec4]) :=
  C7_update_missing_key [curRec4] "zz" emptyPatch 3 (by decide)

/-- Claim C10 (confirmed): `createNote` materialises the four defaultable
fields — an omitted (or falsy) `tags` / `backlinks` / `isArchived` /
`isPinned` input yields `[]` / `[]` / `false` / `false` on the returned
note, the created note is persisted exactly as returned, and by the
(non-optional) result type none of the four fields can be stored as
`undefined`. -/
theorem C10_createNote_defaults (db : DB) (inp : NoteInput) (now : Nat) :
    (createNote db inp now).1.tags = inp.tags.getD [] ∧
    (createNote db inp now).1.backlinks = inp.backlinks.getD [] ∧
    (inp.tags = none → (createNote db inp now).1.tags = []) ∧
    (inp.backlinks = none → (createNote db inp now).1.backlinks = []) ∧
    ((inp.isArchived = none ∨ inp.isArchived = some false) →
      (createNote db inp now).1.isArchived = false) ∧
    ((inp.isPinned = none ∨ inp.isPinned = some false) →
      (createNote db inp now).1.isPinned = false) ∧
    (createNote db inp now).2.notes = db.notes ++ [(createNote db inp now).1] := by
  refine ⟨rfl, rfl, ?_, ?_, ?_, ?_, rfl⟩
  · intro h
    simp [createNote, h]
  · intro h
    simp [createNote, h]
  · intro h
    rcases h with h | h <;> simp [createNote, h]
  · intro h
    rcases h with h | h <;> simp [createNote, h]

/-- Note input with all four defaultable fields omitted, for the C10
witness. -/
def bareNoteInput : NoteInput :=
  { title := "t", content := "c", tags := none, backlinks := none,
    isArchived := none, isPinned := none }

/-- Empty database used by several concrete evaluations. -/
def emptyDB : DB := { notes := [], tags := [], backlinks := [], fresh := 0 }

/-- Witness for C10 at a concrete input with all four fields omitted. -/
theorem C10_createNote_defaults_witness :
    (createNote emptyDB bareNoteInput 4).1.tags = [] ∧
    (createNote emptyDB bareNoteInput 4).1.backlinks = [] ∧
    (createNote emptyDB bareNoteInput 4).1.isArchived = false ∧
    (createNote emptyDB bareNoteInput 4).1.isPinned = false ∧
    (createNote emptyDB bareNoteInput 4).2.notes =
      emptyDB.notes ++ [(createNote emptyDB bareNoteInput 4).1] := by
  have h := C10_createNote_defaults emptyDB bareNoteInput 4
  exact ⟨h.2.2.1 rfl, h.2.2.2.1 rfl, h.2.2.2.2.1 (Or.inl rfl),
    h.2.2.2.2.2.1 (Or.inl rfl), h.2.2.2.2.2.2⟩

/-- Plain tag input carrying only a name. -/
def tagIn (nm : String) : TagInput :=
  { name := nm, color := none, description := none, parentId := none,
    isSystemTag := none }

/-- Claim C3 fails on the code: the duplicate check of `createTag` queries
the `name` index with `IDBKeyRange.only(name)`, an exact (case-sensitive)
key match.  Creating `"foo"` and then `"Foo"` therefore creates a second
tag record: afterwards the store holds two tags whose names differ only in
case, and the second call's result is a new record, not the first tag. -/
theorem C3_counterexample :
    ((createTag ((createTag emptyDB (tagIn "foo") 1).2) (tagIn "Foo") 2).2).tags.length = 2 ∧
    toLowerChars "foo".toList = toLowerChars "Foo".toList ∧
    "foo" ≠ "Foo" ∧
    ((createTag ((createTag emptyDB (tagIn "foo") 1).2) (tagIn "Foo") 2).1 ≠
      (createTag emptyDB (tagIn "foo") 1).1) := by
  decide

/-- Claim C3, amended: tag-name uniqueness at creation is exact
(case-sensitive), not case-insensitive.  When a tag with exactly the
requested name exists, `createTag` returns the first such record and
changes nothing; when none exists it appends a fresh tag (version 1,
requested name); consequently, exact-name uniqueness (but not
case-insensitive uniqueness) is preserved by every `createTag` call, and
names differing only in case can coexist. -/
theorem C3_createTag_exact_uniqueness (db : DB) (inp : TagInput) (now : Nat) :
    (∀ t ts, db.tags.filter (tagNameMatches inp.name) = t :: ts →
      createTag db inp now = (t, db)) ∧
    (db.tags.filter (tagNameMatches inp.name) = [] →
      (createTag db inp now).2.tags = db.tags ++ [(createTag db inp now).1] ∧
      (createTag db inp now).1.name = inp.name ∧
      (createTag db inp now).1.sync.version = 1) ∧
    ((db.tags.map BTag.name).Nodup →
      ((createTag db inp now).2.tags.map BTag.name).Nodup) := by
  refine ⟨?_, ?_, ?_⟩
  · intro t ts h
    simp [createTag, h]
  · intro h
    simp [createTag, h]
  · intro hnd
    cases hflt : db.tags.filter (tagNameMatches inp.name) with
    | cons t ts => simpa [createTag, hflt] using hnd
    | nil =>
      have habs : ∀ t ∈ db.tags, t.name ≠ inp.name := by
        intro t ht
        have := List.filter_eq_nil_iff.mp hflt t ht
        simpa [tagNameMatches] using this
      simp only [createTag, hflt, List.map_append, List.map_cons, List.map_nil]
      rw [List.nodup_append]
      refine ⟨hnd, List.nodup_singleton _, ?_⟩
      intro nm hmem hmem'
      simp only [List.mem_map] at hmem
      obtain ⟨t, ht, rfl⟩ := hmem
      simp only [List.mem_singleton] at hmem'
      exact habs t ht hmem'

/-- Witness for the amended C3 theorem: the first creation appends, and an
exact-name duplicate creation returns the stored record unchanged. -/
theorem C3_createTag_exact_uniqueness_witness :
    ((createTag emptyDB (tagIn "foo") 1).2.tags =
      emptyDB.tags ++ [(createTag emptyDB (tagIn "foo") 1).1] ∧
      (createTag emptyDB (tagIn "foo") 1).1.name = "foo" ∧
      (createTag emptyDB (tagIn "foo") 1).1.sync.version = 1) ∧
    createTag ((createTag emptyDB (tagIn "foo") 1).2) (tagIn "foo") 2 =
      ((createTag emptyDB (tagIn "foo") 1).1, (createTag emptyDB (tagIn "foo") 1).2) ∧
    (((createTag emptyDB (tagIn "foo") 1).2.tags.map BTag.name).Nodup) := by
  refine ⟨(C3_createTag_exact_uniqueness emptyDB (tagIn "foo") 1).2.1 (by decide),
    (C3_createTag_exact_uniqueness ((createTag emptyDB (tagIn "foo") 1).2)
      (tagIn "foo") 2).1 _ [] (by decide),
    (C3_createTag_exact_uniqueness emptyDB (tagIn "foo") 1).2.2 (by decide)⟩

/-- Multiplicity of a backlink record in a list. -/
def occCount (b : BLink) (l : List BLink) : Nat :=
  l.countP (fun x => decide (x = b))

/-- Multiplicity after filtering: a filter keeps all occurrences of `b`
when `b` satisfies the predicate and none otherwise. -/
theorem occCount_filter (b : BLink) (p : BLink → Bool) :
    ∀ l : List BLink, occCount b (l.filter p) = if p b then occCount b l else 0 := by
  intro l
  induction l with
  | nil => by_cases h : p b <;> simp [occCount, h]
  | cons a l ih =>
    simp only [occCount] at ih ⊢
    by_cases hpa : p a
    · by_cases hab : a = b
      · subst hab
        simp [List.filter_cons, hpa, List.countP_cons, ih]
      · have hd : (decide (a = b)) = false := by simp [hab]
        simp [List.filter_cons, hpa, List.countP_cons, ih, hd]
    · by_cases hab : a = b
      · subst hab
        simp [List.filter_cons, hpa, List.countP_cons, ih]
      · have hd : (decide (a = b)) = false := by simp [hab]
        simp [List.filter_cons, hpa, List.countP_cons, ih, hd]

/-- Self-referential backlink used by the C5 counterexample. -/
def selfLoop : BLink :=
  { id := "b1", createdAt := 0, updatedAt := 0, sourceNoteId := "n1",
    targetNoteId := "n1", linkType := "wiki", context := "", posStart := 0,
    posEnd := 0,
    sync := { version := 1, syncedAt := none, isDeleted := some false,
              lastModifiedBy := none } }

/-- Database holding exactly one self-referential backlink. -/
def db50 : DB := { notes := [], tags := [], backlinks := [selfLoop], fresh := 1 }

/-- Claim C5 fails on the code: `getBacklinksForNote` concatenates the
source matches and the target matches without deduplication, so a
self-referential backlink (source = target = n) occurs twice in the result,
not exactly once. -/
theorem C5_counterexample :
    getBacklinksForNote db50 "n1" = [selfLoop, selfLoop] ∧
    occCount selfLoop db50.backlinks = 1 ∧
    occCount selfLoop (getBacklinksForNote db50 "n1") = 2 := by
  decide

/-- Claim C5, amended: `getBacklinksForNote(n)` returns the concatenation
of the source matches and the target matches — a backlink stored once
appears exactly once when `n` matches only one of its endpoints, but twice
when it is self-referential with both endpoints equal to `n`; membership in
the result is still exactly incidence to `n`. -/
theorem C5_getBacklinksForNote_union (db : DB) (n : String) (b : BLink)
    (h : occCount b db.backlinks = 1) :
    occCount b (getBacklinksForNote db n) =
      (if b.sourceNoteId = n then 1 else 0) +
        (if b.targetNoteId = n then 1 else 0) ∧
    (b ∈ getBacklinksForNote db n ↔
      (b.sourceNoteId = n ∨ b.targetNoteId = n)) := by
  have hmem : b ∈ db.backlinks := by
    have hpos : 0 < db.backlinks.countP (fun x => decide (x = b)) := by
      rw [show db.backlinks.countP (fun x => decide (x = b)) = occCount b db.backlinks from rfl, h]
      omega
    obtain ⟨a, ha, hab⟩ := List.countP_pos_iff.mp hpos
    simpa [of_decide_eq_true hab] using ha
  constructor
  · rw [getBacklinksForNote, occCount, List.countP_append]
    rw [show ∀ l p, List.countP (fun x => decide (x = b)) (List.filter p l)
        = occCount b (List.filter p l) from fun _ _ => rfl]
    rw [show ∀ l p, List.countP (fun x => decide (x = b)) (List.filter p l)
        = occCount b (List.filter p l) from fun _ _ => rfl]
    rw [occCount_filter, occCount_filter]
    by_cases hs : b.sourceNoteId = n <;> by_cases ht : b.targetNoteId = n <;>
      simp [hs, ht, h, occCount] at h ⊢ <;> omega
  · simp only [getBacklinksForNote, List.mem_append, List.mem_filter]
    constructor
    · rintro (⟨_, hb⟩ | ⟨_, hb⟩)
      · exact Or.inl (by simpa using hb)
      · exact Or.inr (by simpa using hb)
    · rintro (hb | hb)
      · exact Or.inl ⟨hmem, by simpa using hb⟩
      · exact Or.inr ⟨hmem, by simpa using hb⟩

/-- Witness for the amended C5 theorem: at the self-loop input both
endpoint tests hold and the multiplicity in the result is 2. -/
theorem C5_getBacklinksForNote_union_witness :
    (occCount selfLoop (getBacklinksForNote db50 "n1") =
      (if selfLoop.sourceNoteId = "n1" then 1 else 0) +
        (if selfLoop.targetNoteId = "n1" then 1 else 0)) ∧
    (selfLoop ∈ getBacklinksForNote db50 "n1" ↔
      (selfLoop.sourceNoteId = "n1" ∨ selfLoop.targetNoteId = "n1")) :=
  C5_getBacklinksForNote_union db50 "n1" selfLoop (by decide)

/-- Plain note value used by concrete evaluations. -/
def noteRec (i t c : String) : BNote :=
  { id := i, createdAt := 0, updatedAt := 0, title := t, content := c,
    tags := [], backlinks := [], isArchived := false, isPinned := false,
    sync := { version := 1, syncedAt := none, isDeleted := some false,
              lastModifiedBy := none } }

/-- Backlink from note `n2` to note `n1`: with respect to `n1` this is an
incoming link (`n1` appears only as `targetNoteId`). -/
def incomingLink : BLink :=
  { id := "b1", createdAt := 0, updatedAt := 0, sourceNoteId := "n2",
    targetNoteId := "n1", linkType := "wiki", context := "", posStart := 0,
    posEnd := 0,
    sync := { version := 1, syncedAt := none, isDeleted := some false,
              lastModifiedBy := none } }

/-- Database in which `n2` links to `n1` and `n1` has no outgoing links. -/
def db10 : DB :=
  { notes := [noteRec "n1" "alpha" "", noteRec "n2" "beta" "see [[alpha]]"],
    tags := [], backlinks := [incomingLink], fresh := 2 }

/-- Claim C1 identifies a code bug: the teardown of
`syncBacklinksForNote("n1", "")` is supposed (per the comment in
`removeBacklinksFromNote` — "Get all backlinks where this note is the
source" — and per the specification) to delete only rows with
`sourceNoteId = "n1"`, but it deletes everything `getBacklinksForNote`
returns, i.e. also the incoming link from `n2` in which `"n1"` appears only
as target: after the sync the backlink store is empty. -/
theorem C1_teardown_deletes_incoming :
    (syncBacklinksForNote db10 "n1" "" 5).backlinks = [] ∧
    incomingLink.sourceNoteId ≠ "n1" ∧
    incomingLink.targetNoteId = "n1" ∧
    incomingLink ∈ db10.backlinks := by
  decide

/-- Nodup invariant of the hashtag scanner accumulator: a name is appended
only when `acc.contains` it is not already collected. -/
theorem extractTagsAux_nodup :
    ∀ (fuel : Nat) (cs : List Char) (acc : List String),
      acc.Nodup → (extractTagsAux fuel cs acc).Nodup := by
  intro fuel
  induction fuel with
  | zero => intro cs acc h; simpa [extractTagsAux] using h
  | succ fuel ih =>
    intro cs acc h
    cases cs with
    | nil => simpa [extractTagsAux] using h
    | cons c cs =>
      simp only [extractTagsAux]
      by_cases hq : (c == '#' && !(List.takeWhile isTagChar cs).isEmpty) = true
      · rw [if_pos hq]
        by_cases hc :
          acc.contains (String.mk (toLowerChars (List.takeWhile isTagChar cs))) = true
        · rw [if_pos hc]
          exact ih _ _ h
        · rw [if_neg hc]
          apply ih
          rw [List.nodup_append]
          refine ⟨h, List.nodup_singleton _, fun nm hmem hmem' => ?_⟩
          simp only [List.mem_singleton] at hmem'
          subst hmem'
          exact hc (by simpa [List.contains] using hmem)
      · rw [if_neg hq]
        exact ih cs acc h

/-- Tag resolution never touches the notes store: `getTagByName` is a read
and `createTag` only writes the tags store. -/
theorem resolveTags_notes (names : List String) :
    ∀ (db : DB) (now : Nat) (palette : Nat → String),
      (resolveTags db names now palette).2.notes = db.notes := by
  induction names with
  | nil => intro db now palette; rfl
  | cons nm rest ih =>
    intro db now palette
    simp only [resolveTags]
    cases hg : getTagByName db nm with
    | some t => simpa using ih db now palette
    | none =>
      have hcr : ∀ (inp : TagInput), (createTag db inp now).2.notes = db.notes := by
        intro inp
        rw [createTag]
        cases db.tags.filter (tagNameMatches inp.name) <;> rfl
      rw [ih, hcr]

/-- Tag resolution produces exactly one tag id per extracted name. -/
theorem resolveTags_length (names : List String) :
    ∀ (db : DB) (now : Nat) (palette : Nat → String),
      (resolveTags db names now palette).1.length = names.length := by
  induction names with
  | nil => intro db now palette; rfl
  | cons nm rest ih =>
    intro db now palette
    simp only [resolveTags, List.length_cons]
    rw [ih]

/-- Lookup after a key-preserving note `put` at the written note's key. -/
theorem putNote_find_self (l : List BNote) (u : BNote) :
    (putNote l u).find? (fun n => n.id == u.id) = some u := by
  induction l with
  | nil => simp [putNote, List.find?]
  | cons n ns ih =>
    by_cases h : n.id = u.id
    · simp [putNote, h, List.find?]
    · have hb : (n.id == u.id) = false := by simp [h]
      simp only [putNote, hb, if_false, List.find?]
      exact ih

/-- Identification of a fetched note's key. -/
theorem getNoteDB_id {db : DB} {i : String} {n : BNote}
    (h : getNoteDB db i = some n) : n.id = i := by
  have := List.find?_some h
  simpa using this

/-- Claim C8 (confirmed): `syncTagsForNote` extracts the lowercased hashtag
names in order of first appearance with duplicates collapsed (the scanner
accepts `#` followed by ASCII letters, digits, underscores or hyphens),
resolves one tag id per name by find-or-create, and replaces the note's
`tags` field with exactly the resolved list, so any tag id not in that list
is absent afterwards; on the content `"Ideas about #work and #Work"` the
extracted list is exactly `["work"]`, hence the note ends up with exactly
one tag entry. -/
theorem C8_syncTags_replaces_tags :
    (extractTagsFromContent "Ideas about #work and #Work" = ["work"]) ∧
    (∀ c, (extractTagsFromContent c).Nodup) ∧
    (∀ (db : DB) (noteId content : String) (now : Nat)
      (palette : Nat → String) (note0 : BNote),
      getNoteDB db noteId = some note0 →
      ∃ ids db', syncTagsForNote db noteId content now palette =
          (Except.ok ids, db') ∧
        ids.length = (extractTagsFromContent content).length ∧
        ∃ note', getNoteDB db' noteId = some note' ∧ note'.tags = ids ∧
          (∀ t, t ∉ ids → t ∉ note'.tags)) := by
  refine ⟨by decide, fun c => extractTagsAux_nodup _ _ [] List.nodup_nil, ?_⟩
  intro db noteId content now palette note0 h0
  simp only [syncTagsForNote]
  have hnotes := resolveTags_notes (extractTagsFromContent content) db now palette
  have hget2 : getNoteDB (resolveTags db (extractTagsFromContent content) now palette).2 noteId
      = some note0 := by
    rw [getNoteDB, hnotes]
    exact h0
  rw [updateNoteDB, hget2]
  refine ⟨_, _, rfl, resolveTags_length _ _ _ _, ?_⟩
  set res := resolveTags db (extractTagsFromContent content) now palette with hres
  set u := mergeNote note0 (tagsPatch res.1) now with hu
  have huid : u.id = noteId := by
    have := getNoteDB_id h0
    simp [hu, mergeNote, this]
  refine ⟨u, ?_, rfl, fun t ht => ht⟩
  show (putNote res.2.notes u).find? (fun n => n.id == noteId) = some u
  rw [← huid]
  exact putNote_find_self res.2.notes u

/-- Database with a single note for the C8 witness. -/
def db80 : DB :=
  { notes := [noteRec "n1" "alpha" ""], tags := [], backlinks := [], fresh := 1 }

/-- Constant palette used where a colour choice is irrelevant. -/
def bluePalette : Nat → String := fun _ => "#3b82f6"

/-- Witness for C8 on a concrete database and the content from the claim. -/
theorem C8_syncTags_replaces_tags_witness :
    ∃ ids db', syncTagsForNote db80 "n1" "Ideas about #work and #Work" 3 bluePalette =
        (Except.ok ids, db') ∧
      ids.length = (extractTagsFromContent "Ideas about #work and #Work").length ∧
      ∃ note', getNoteDB db' "n1" = some note' ∧ note'.tags = ids ∧
        (∀ t, t ∉ ids → t ∉ note'.tags) :=
  C8_syncTags_replaces_tags.2.2 db80 "n1" "Ideas about #work and #Work" 3
    bluePalette (noteRec "n1" "alpha" "") (by decide)

/-- Characters of the literal wiki-link pattern `[[title]]` asserted by the
claim. -/
def wikiPatChars (title : String) : List Char :=
  '[' :: '[' :: (title.toList ++ [']', ']'])

/-- Case-insensitive literal prefix match (the matching the claim asserts
for the rename scan). -/
def litFront (pat s : List Char) : Bool :=
  startsWithCS (toLowerChars pat) (toLowerChars s)

/-- Case-insensitive literal occurrence test. -/
def ciContains (pat : List Char) : List Char → Bool
  | [] => litFront pat []
  | c :: cs => litFront pat (c :: cs) || ciContains pat cs

/-- Case-insensitive literal global replacement of the nonempty pattern
`p0 :: ps` (structurally mirrored on `replaceScan`). -/
def ciReplaceScan (p0 : Char) (ps repl : List Char) :
    Nat → List Char → List Char
  | 0, s => s
  | _ + 1, [] => []
  | fuel + 1, c :: cs =>
    if litFront (p0 :: ps) (c :: cs) then
      repl ++ ciReplaceScan p0 ps repl fuel (cs.drop ps.length)
    else c :: ciReplaceScan p0 ps repl fuel cs

/-- Case-insensitive literal replacement entry point. -/
def ciReplaceAll (pat repl s : List Char) : List Char :=
  match pat with
  | [] => s
  | p0 :: ps => ciReplaceScan p0 ps repl s.length s

/-- Title characters inside the modelled regex fragment that are matched
literally: everything except the metacharacters (including the
backslash). -/
def safeChar (c : Char) : Bool := !(regexMeta c)

/-- Matching a sequence of literal tokens coincides with case-insensitive
literal prefix matching. -/
theorem frontMatch_lits (l : List Char) :
    ∀ s : List Char, frontMatch (l.map RTok.lit) s = litFront l s := by
  induction l with
  | nil => intro s; simp [frontMatch, litFront, toLowerChars, startsWithCS]
  | cons c cs ih =>
    intro s
    cases s with
    | nil => simp [frontMatch, litFront, toLowerChars, startsWithCS]
    | cons x xs =>
      simp only [List.map_cons, frontMatch, tokMatches, litFront,
        toLowerChars, List.map_cons, startsWithCS]
      rw [show startsWithCS (List.map Char.toLower cs) (List.map Char.toLower xs)
          = litFront cs xs from rfl, ← ih xs]

/-- Testing a sequence of literal tokens coincides with case-insensitive
literal occurrence. -/
theorem regexTest_lits (l : List Char) :
    ∀ s : List Char, regexTest (l.map RTok.lit) s = ciContains l s := by
  intro s
  induction s with
  | nil => simp [regexTest, ciContains, frontMatch_lits]
  | cons c cs ih =>
    simp only [regexTest, ciContains, frontMatch_lits, ih]

/-- Replacing a sequence of literal tokens coincides with case-insensitive
literal replacement. -/
theorem replaceScan_lits (p0 : Char) (ps repl : List Char) :
    ∀ (fuel : Nat) (s : List Char),
      replaceScan (RTok.lit p0) (ps.map RTok.lit) repl fuel s =
        ciReplaceScan p0 ps repl fuel s := by
  intro fuel
  induction fuel with
  | zero => intro s; simp [replaceScan, ciReplaceScan]
  | succ fuel ih =>
    intro s
    cases s with
    | nil => simp [replaceScan, ciReplaceScan]
    | cons c cs =>
      simp only [replaceScan, ciReplaceScan]
      rw [show (RTok.lit p0 :: ps.map RTok.lit) = (p0 :: ps).map RTok.lit from rfl,
        frontMatch_lits, List.length_map, ih, ih]

/-- Compilation of a metacharacter-free title yields exactly its
characters as literal tokens. -/
theorem compileTitle_safe :
    ∀ cs : List Char, (∀ c ∈ cs, safeChar c = true) →
      compileTitle cs = some (cs.map RTok.lit) := by
  intro cs
  induction cs with
  | nil => intro h; rfl
  | cons c rest ih =>
    intro h
    have hc : safeChar c = true := h c (List.mem_cons_self c rest)
    have hmeta : regexMeta c = false := by
      simpa [safeChar] using hc
    have hbs : (c == '\\') = false := by
      by_contra hx
      have : (c == '\\') = true := by
        cases hy : (c == '\\') with
        | true => rfl
        | false => exact absurd hy hx
      have : c = '\\' := by simpa using this
      subst this
      simp [regexMeta] at hmeta
    have hdot : (c == '.') = false := by
      by_contra hx
      have : (c == '.') = true := by
        cases hy : (c == '.') with
        | true => rfl
        | false => exact absurd hy hx
      have : c = '.' := by simpa using this
      subst this
      simp [regexMeta] at hmeta
    have hrest := ih (fun x hx => h x (List.mem_cons_of_mem c hx))
    rw [compileTitle.eq_def]
    simp [hbs, hdot, hmeta, hrest]

/-- Pattern of a metacharacter-free title: the literal tokens of
`[[title]]`. -/
theorem titlePattern_safe (title : String)
    (h : ∀ c ∈ title.toList, safeChar c = true) :
    titlePattern title = some ((wikiPatChars title).map RTok.lit) := by
  rw [titlePattern, compileTitle_safe title.toList h]
  simp [wikiPatChars]

/-- Database for the C9 counterexample: the note `n1` is titled `a.c` (a
title containing the regex wildcard `.`), and `n2` contains `[[abc]]` but
no literal occurrence of `[[a.c]]`. -/
def db90 : DB :=
  { notes := [noteRec "n1" "a.c" "", noteRec "n2" "beta" "see [[abc]]"],
    tags := [], backlinks := [], fresh := 2 }

/-- Claim C9 fails on the code: the old title is interpolated unescaped
into the scan regex, so renaming `a.c` to `x` rewrites `n2`'s content
`"see [[abc]]"` — which contains no literal (even case-insensitive)
occurrence of `[[a.c]]` — to `"see [[x]]"`, contradicting both
"exact-title match only" and "notes containing no such occurrence are not
modified". -/
theorem C9_counterexample :
    ((updateBacklinksOnNoteRename db90 "a.c" "x" 7).toOption.bind
      (fun d => (getNoteDB d "n2").map BNote.content)) = some "see [[x]]" ∧
    ciContains (wikiPatChars "a.c") "see [[abc]]".toList = false ∧
    "see [[x]]" ≠ "see [[abc]]" := by
  decide

/-- Frame of a backlink-store fold over the notes store. -/
theorem foldl_notes_eq {β : Type} (f : DB → β → DB)
    (hf : ∀ d b, (f d b).notes = d.notes) :
    ∀ (l : List β) (db : DB), (l.foldl f db).notes = db.notes := by
  intro l
  induction l with
  | nil => intro db; rfl
  | cons b bs ih =>
    intro db
    rw [List.foldl_cons, ih, hf]

/-- Backlink sync never touches the notes store: the teardown only deletes
backlinks and the creation phase only reads notes and appends backlinks. -/
theorem syncBacklinks_notes (db : DB) (n c : String) (now : Nat) :
    (syncBacklinksForNote db n c now).notes = db.notes := by
  rw [syncBacklinksForNote, createBacklinksFor, foldl_notes_eq]
  · rw [removeBacklinksFromNote, foldl_notes_eq]
    intro d b
    rfl
  · intro d link
    cases findNoteByTitle d link.title <;> rfl

/-- Note lookup at a key other than a written note's key is unaffected by
the `put`. -/
theorem putNote_find_ne (u : BNote) (i : String) (hne : u.id ≠ i) :
    ∀ l : List BNote,
      (putNote l u).find? (fun n => n.id == i) = l.find? (fun n => n.id == i) := by
  intro l
  induction l with
  | nil =>
    have hb : (u.id == i) = false := by simp [hne]
    simp [putNote, List.find?, hb]
  | cons n ns ih =>
    by_cases h : n.id = u.id
    · have hb1 : (n.id == u.id) = true := by simp [h]
      have hbu : (u.id == i) = false := by simp [hne]
      have hbn : (n.id == i) = false := by simp [h, hne]
      simp [putNote, hb1, List.find?, hbu, hbn]
    · have hb1 : (n.id == u.id) = false := by simp [h]
      simp only [putNote, hb1, if_false, List.find?]
      cases hni : (n.id == i) <;> simp [ih]

/-- Key multiset preservation of a `put` that overwrites an existing key. -/
theorem putNote_ids (u : BNote) :
    ∀ l : List BNote, (∃ x ∈ l, x.id = u.id) →
      (putNote l u).map BNote.id = l.map BNote.id := by
  intro l
  induction l with
  | nil => rintro ⟨x, hx, -⟩; cases hx
  | cons n ns ih =>
    rintro ⟨x, hx, hxid⟩
    by_cases h : n.id = u.id
    · have hb1 : (n.id == u.id) = true := by simp [h]
      simp [putNote, hb1, h]
    · have hb1 : (n.id == u.id) = false := by simp [h]
      have hxmem : x ∈ ns := by
        cases List.mem_cons.mp hx with
        | inl heq => exact absurd (heq ▸ hxid) h
        | inr hm => exact hm
      simp [putNote, hb1, ih ⟨x, hxmem, hxid⟩]

/-- Overwriting `put` as a pointwise map, valid when the written key is
present and keys are duplicate-free. -/
theorem putNote_map (u : BNote) :
    ∀ l : List BNote, (l.map BNote.id).Nodup →
      (∃ x ∈ l, x.id = u.id) →
      putNote l u = l.map (fun n => if n.id = u.id then u else n) := by
  intro l
  induction l with
  | nil => rintro - ⟨x, hx, -⟩; cases hx
  | cons n ns ih =>
    intro hnd hex
    obtain ⟨x, hx, hxid⟩ := hex
    simp only [List.map_cons, List.nodup_cons] at hnd
    by_cases h : n.id = u.id
    · have hb1 : (n.id == u.id) = true := by simp [h]
      have hrest : ∀ m ∈ ns, m.id ≠ u.id := by
        intro m hm hmu
        exact hnd.1 (by rw [← h, ← hmu] at *; exact List.mem_map_of_mem BNote.id hm)
      have : ns.map (fun n => if n.id = u.id then u else n) = ns := by
        conv_rhs => rw [← List.map_id ns]
        apply List.map_congr_left
        intro m hm
        simp [hrest m hm]
      simp [putNote, hb1, h, this]
    · have hb1 : (n.id == u.id) = false := by simp [h]
      have hxmem : x ∈ ns := by
        cases List.mem_cons.mp hx with
        | inl heq => exact absurd (heq ▸ hxid) h
        | inr hm => exact hm
      simp [putNote, hb1, h, ih hnd.2 ⟨x, hxmem, hxid⟩]

/-- Self-lookup in a duplicate-free notes list. -/
theorem nodup_find_self :
    ∀ l : List BNote, (l.map BNote.id).Nodup →
      ∀ sn ∈ l, l.find? (fun n => n.id == sn.id) = some sn := by
  intro l
  induction l with
  | nil => intro _ sn h; cases h
  | cons a l ih =>
    intro hnd sn hsn
    simp only [List.map_cons, List.nodup_cons] at hnd
    cases List.mem_cons.mp hsn with
    | inl heq =>
      subst heq
      simp [List.find?]
    | inr hm =>
      have hne : a.id ≠ sn.id := by
        intro hx
        exact hnd.1 (hx ▸ List.mem_map_of_mem BNote.id hm)
      have hb : (a.id == sn.id) = false := by simp [hne]
      simp only [List.find?, hb]
      exact ih hnd.2 sn hm

/-- Uniqueness of notes under duplicate-free keys. -/
theorem nodup_unique_id :
    ∀ l : List BNote, (l.map BNote.id).Nodup →
      ∀ m n : BNote, m ∈ l → n ∈ l → m.id = n.id → m = n := by
  intro l
  induction l with
  | nil => intro _ m n hm; cases hm
  | cons a l ih =>
    intro hnd m n hm hn hid
    simp only [List.map_cons, List.nodup_cons] at hnd
    cases List.mem_cons.mp hm with
    | inl hma =>
      cases List.mem_cons.mp hn with
      | inl hna => rw [hma, hna]
      | inr hnl =>
        exact absurd (hma ▸ hid ▸ List.mem_map_of_mem BNote.id hnl)
          (by rw [hma] at *; exact fun hx => hnd.1 (by simpa [hid] using hx))
    | inr hml =>
      cases List.mem_cons.mp hn with
      | inl hna =>
        subst hna
        exact absurd (hid ▸ List.mem_map_of_mem BNote.id hml)
          (by simpa using hnd.1)
      | inr hnl => exact ih hnd.2 m n hml hnl hid

/-- Record-level transformation applied by one rename-loop iteration: the
renamed note itself is skipped, a note whose content tests positive is
rewritten (content replaced, `updatedAt` set, version incremented — the
effect of `updateNote` with a content patch), and any other note is left
alone. -/
def renameNoteFn (rid : String) (p : List RTok) (repl : List Char)
    (now : Nat) (n : BNote) : BNote :=
  if n.id = rid then n
  else if regexTest p n.content.toList then
    mergeNote n
      (contentPatch (String.mk (regexReplaceAll p repl n.content.toList))) now
  else n

/-- Any-of-key test in terms of key membership (false case). -/
theorem any_id_false {rest : List BNote} {i : String}
    (h : i ∉ rest.map BNote.id) :
    rest.any (fun m => m.id == i) = false := by
  rw [List.any_eq_false]
  intro m hm
  simp only [beq_iff_eq]
  intro hmi
  exact h (hmi ▸ List.mem_map_of_mem BNote.id hm)

/-- Notes-store characterisation of the rename loop: under duplicate-free
keys, folding the rewrite step over a snapshot `todo` of stored notes
succeeds and transforms exactly the snapshot notes pointwise by
`renameNoteFn`, leaving keys unchanged. -/
theorem renameFold_notes (rid oldT : String) (p : List RTok)
    (repl : List Char) (now : Nat) (hpat : titlePattern oldT = some p) :
    ∀ (todo : List BNote) (db : DB),
      (db.notes.map BNote.id).Nodup →
      (todo.map BNote.id).Nodup →
      (∀ sn ∈ todo, getNoteDB db sn.id = some sn) →
      ∃ db', renameFold rid oldT repl now db todo = Except.ok db' ∧
        db'.notes = db.notes.map
          (fun n => if todo.any (fun m => m.id == n.id)
            then renameNoteFn rid p repl now n else n) ∧
        db'.notes.map BNote.id = db.notes.map BNote.id := by
  intro todo
  induction todo with
  | nil =>
    intro db hnd _ _
    refine ⟨db, rfl, ?_, rfl⟩
    simp
  | cons sn rest ih =>
    intro db hnd hndT hinv
    simp only [List.map_cons, List.nodup_cons] at hndT
    have hsn : getNoteDB db sn.id = some sn := hinv sn (List.mem_cons_self sn rest)
    have hsnmem : sn ∈ db.notes := List.mem_of_find?_eq_some hsn
    by_cases hskip : sn.id = rid
    · have hb : (sn.id == rid) = true := by simp [hskip]
      obtain ⟨db', hok, hmap, hids⟩ := ih db hnd hndT.2
        (fun m hm => hinv m (List.mem_cons_of_mem sn hm))
      refine ⟨db', ?_, ?_, hids⟩
      · simp only [renameFold, hb]
        simpa using hok
      · rw [hmap]
        apply List.map_congr_left
        intro n hn
        by_cases hcase : sn.id = n.id
        · have hbc : (sn.id == n.id) = true := by simp [hcase]
          have hrest : rest.any (fun m => m.id == n.id) = false :=
            any_id_false (hcase ▸ hndT.1)
          have hnid : n.id = rid := by rw [← hcase, hskip]
          simp [List.any_cons, hbc, hrest, renameNoteFn, hnid]
        · have hbc : (sn.id == n.id) = false := by simp [hcase]
          simp [List.any_cons, hbc]
    · have hb : (sn.id == rid) = false := by simp [hskip]
      by_cases hts : regexTest p sn.content.toList = true
      · have hupd : updateNoteDB db sn.id
            (contentPatch (String.mk (regexReplaceAll p repl sn.content.toList))) now =
            Except.ok (mergeNote sn
                (contentPatch (String.mk (regexReplaceAll p repl sn.content.toList))) now,
              { db with notes := putNote db.notes (mergeNote sn
                (contentPatch (String.mk (regexReplaceAll p repl sn.content.toList))) now) }) := by
          rw [updateNoteDB, hsn]
        set u := mergeNote sn
          (contentPatch (String.mk (regexReplaceAll p repl sn.content.toList))) now with hu
        have huid : u.id = sn.id := rfl
        set dbS := syncBacklinksForNote
          { db with notes := putNote db.notes u } sn.id
          (String.mk (regexReplaceAll p repl sn.content.toList)) now with hdbS
        have hSnotes : dbS.notes = putNote db.notes u := by
          rw [hdbS, syncBacklinks_notes]
        have hids1 : (putNote db.notes u).map BNote.id = db.notes.map BNote.id :=
          putNote_ids u db.notes ⟨sn, hsnmem, huid.symm⟩
        have hndS : (dbS.notes.map BNote.id).Nodup := by
          rw [hSnotes, hids1]; exact hnd
        have hinvS : ∀ m ∈ rest, getNoteDB dbS m.id = some m := by
          intro m hm
          have hneq : u.id ≠ m.id := by
            rw [huid]
            intro hx
            exact hndT.1 (hx ▸ List.mem_map_of_mem BNote.id hm)
          show dbS.notes.find? (fun n => n.id == m.id) = some m
          rw [hSnotes, putNote_find_ne u m.id hneq db.notes]
          exact hinv m (List.mem_cons_of_mem sn hm)
        obtain ⟨db', hok, hmap, hids2⟩ := ih dbS hndS hndT.2 hinvS
        refine ⟨db', ?_, ?_, by rw [hids2, hSnotes, hids1]⟩
        · simp only [renameFold, hb, hpat, hts, hupd]
          simpa using hok
        · rw [hmap, hSnotes, putNote_map u db.notes hnd ⟨sn, hsnmem, huid.symm⟩,
            List.map_map]
          apply List.map_congr_left
          intro n hn
          by_cases hcase : sn.id = n.id
          · have hnsn : n = sn :=
              nodup_unique_id db.notes hnd n sn hn hsnmem hcase.symm
            subst hnsn
            have hnu : n.id = u.id := huid.symm
            have hrest : rest.any (fun m => m.id == u.id) = false := by
              rw [huid]
              exact any_id_false hndT.1
            have hanyc : (n :: rest).any (fun m => m.id == n.id) = true := by
              simp [List.any_cons]
            simp only [Function.comp_apply, if_pos hnu, hanyc, if_true]
            rw [show rest.any (fun m => m.id == u.id) = false from hrest]
            simp only [Bool.false_eq_true, if_false]
            rw [renameNoteFn, if_neg hskip, if_pos hts, hu]
          · have hbc : (sn.id == n.id) = false := by simp [hcase]
            have hnu : ¬ (n.id = u.id) := by
              rw [huid]
              exact fun hx => hcase hx.symm
            simp only [Function.comp_apply, if_neg hnu, List.any_cons, hbc,
              Bool.false_or]
      · have htsf : regexTest p sn.content.toList = false := by
          cases hx : regexTest p sn.content.toList with
          | true => exact absurd hx hts
          | false => rfl
        obtain ⟨db', hok, hmap, hids⟩ := ih db hnd hndT.2
          (fun m hm => hinv m (List.mem_cons_of_mem sn hm))
        refine ⟨db', ?_, ?_, hids⟩
        · simp only [renameFold, hb, hpat, htsf]
          simpa using hok
        · rw [hmap]
          apply List.map_congr_left
          intro n hn
          by_cases hcase : sn.id = n.id
          · have hbc : (sn.id == n.id) = true := by simp [hcase]
            have hnsn : n = sn :=
              nodup_unique_id db.notes hnd n sn hn hsnmem hcase.symm
            have hrest : rest.any (fun m => m.id == n.id) = false :=
              any_id_false (hcase ▸ hndT.1)
            have hrrn : renameNoteFn rid p repl now n = n := by
              rw [hnsn, renameNoteFn, if_neg hskip, if_neg]
              rw [htsf]
              exact Bool.false_ne_true
            simp [List.any_cons, hbc, hrest, hrrn]
          · have hbc : (sn.id == n.id) = false := by simp [hcase]
            simp [List.any_cons, hbc]

/-- Rename loop over notes that are all skipped (the renamed note itself or
notes whose content has no match): the database is returned unchanged. -/
theorem renameFold_noop (rid oldT : String) (p : List RTok)
    (repl : List Char) (now : Nat) (hpat : titlePattern oldT = some p) :
    ∀ (todo : List BNote) (db : DB),
      (∀ sn ∈ todo, sn.id = rid ∨ regexTest p sn.content.toList = false) →
      renameFold rid oldT repl now db todo = Except.ok db := by
  intro todo
  induction todo with
  | nil => intro db _; rfl
  | cons sn rest ih =>
    intro db h
    have hrest := fun m hm => h m (List.mem_cons_of_mem sn hm)
    by_cases hid : sn.id = rid
    · have hb : (sn.id == rid) = true := by simp [hid]
      simp only [renameFold, hb]
      simpa using ih db hrest
    · have hb : (sn.id == rid) = false := by simp [hid]
      cases h sn (List.mem_cons_self sn rest) with
      | inl h1 => exact absurd h1 hid
      | inr hts =>
        simp only [renameFold, hb, hpat, hts]
        simpa using ih db hrest

/-- Sequential decomposition of the rename loop over a split snapshot. -/
theorem renameFold_append (rid oldT : String) (repl : List Char) (now : Nat) :
    ∀ (l1 l2 : List BNote) (db db1 : DB),
      renameFold rid oldT repl now db l1 = Except.ok db1 →
      renameFold rid oldT repl now db (l1 ++ l2) =
        renameFold rid oldT repl now db1 l2 := by
  intro l1
  induction l1 with
  | nil =>
    intro l2 db db1 h
    simp only [renameFold] at h
    cases h
    rfl
  | cons sn rest ih =>
    intro l2 db db1 h
    simp only [renameFold, List.cons_append] at h ⊢
    cases hbe : (sn.id == rid) with
    | true =>
      simp only [hbe, if_true] at h ⊢
      exact ih l2 db db1 h
    | false =>
      simp only [hbe, Bool.false_eq_true, if_false] at h ⊢
      cases hpp : titlePattern oldT with
      | none => simp [hpp] at h
      | some p =>
        simp only [hpp] at h ⊢
        cases hts : regexTest p sn.content.toList with
        | false =>
          simp only [hts, Bool.false_eq_true, if_false] at h ⊢
          exact ih l2 db db1 h
        | true =>
          simp only [hts, if_true] at h ⊢
          cases hupd : updateNoteDB db sn.id
              (contentPatch { data := regexReplaceAll p repl sn.content.toList }) now with
          | error e =>
            rw [hupd] at h
            exact Except.noConfusion h
          | ok d =>
            rw [hupd] at h
            exact ih l2 _ db1 h

/-- Replacement with an all-literal pattern coincides with case-insensitive
literal replacement. -/
theorem regexReplaceAll_lits (l repl s : List Char) :
    regexReplaceAll (l.map RTok.lit) repl s = ciReplaceAll l repl s := by
  cases l with
  | nil => rfl
  | cons c cs =>
    simp only [List.map_cons, regexReplaceAll, ciReplaceAll]
    exact replaceScan_lits c cs repl s.length s

/-- Claim C9, amended: `updateBacklinksOnNoteRename(oldTitle, newTitle)`
locates the note carrying the old title and rewrites, in every other stored
note, exactly the occurrences matched by the case-insensitive regex
`\[\[oldTitle\]\]` built by raw interpolation of the title — which is the
literal case-insensitive pattern `[[oldTitle]]` precisely when the title
contains no regex metacharacter; each matching note is persisted with the
rewritten content (version incremented), backlink sync is re-run per
mutated note, and notes without a match (in particular all notes when
nothing matches) are left completely unmodified. -/
theorem C9_rename_regex_rewrite (db : DB) (oldTitle newTitle : String)
    (now : Nat) (rn : BNote) (p : List RTok)
    (hfind : findNoteByTitle db oldTitle = some rn)
    (hpat : titlePattern oldTitle = some p)
    (hnd : (db.notes.map BNote.id).Nodup) :
    ∃ db', updateBacklinksOnNoteRename db oldTitle newTitle now = Except.ok db' ∧
      db'.notes = db.notes.map
        (renameNoteFn rn.id p (renameReplacement newTitle) now) ∧
      (∀ n ∈ db.notes, n.id ≠ rn.id → regexTest p n.content.toList = false →
        n ∈ db'.notes) ∧
      ((∀ n ∈ db.notes, n.id = rn.id ∨ regexTest p n.content.toList = false) →
        db' = db) ∧
      (∀ l1 m l2, db.notes = l1 ++ m :: l2 → m.id ≠ rn.id →
        regexTest p m.content.toList = true →
        (∀ n ∈ l1, n.id = rn.id ∨ regexTest p n.content.toList = false) →
        (∀ n ∈ l2, n.id = rn.id ∨ regexTest p n.content.toList = false) →
        db' = syncBacklinksForNote
          { db with notes := putNote db.notes (mergeNote m
              (contentPatch (String.mk (regexReplaceAll p
                (renameReplacement newTitle) m.content.toList))) now) }
          m.id
          (String.mk (regexReplaceAll p (renameReplacement newTitle)
            m.content.toList)) now) ∧
      ((∀ c ∈ oldTitle.toList, safeChar c = true) →
        (∀ s, regexTest p s = ciContains (wikiPatChars oldTitle) s) ∧
        (∀ s, regexReplaceAll p (renameReplacement newTitle) s =
          ciReplaceAll (wikiPatChars oldTitle) (renameReplacement newTitle) s)) := by
  obtain ⟨db', hok, hmap, hids⟩ :=
    renameFold_notes rn.id oldTitle p (renameReplacement newTitle) now hpat
      db.notes db hnd hnd (nodup_find_self db.notes hnd)
  have hrun : updateBacklinksOnNoteRename db oldTitle newTitle now =
      Except.ok db' := by
    rw [updateBacklinksOnNoteRename, hfind]
    exact hok
  have hmap2 : db'.notes = db.notes.map
      (renameNoteFn rn.id p (renameReplacement newTitle) now) := by
    rw [hmap]
    apply List.map_congr_left
    intro n hn
    have hany : db.notes.any (fun m => m.id == n.id) = true :=
      List.any_eq_true.mpr ⟨n, hn, by simp⟩
    simp [hany]
  refine ⟨db', hrun, hmap2, ?_, ?_, ?_, ?_⟩
  · intro n hn hne htf
    have hrr : renameNoteFn rn.id p (renameReplacement newTitle) now n = n := by
      rw [renameNoteFn, if_neg hne, if_neg]
      rw [htf]
      exact Bool.false_ne_true
    rw [hmap2, ← hrr]
    exact List.mem_map_of_mem _ hn
  · intro hall
    have hnoop := renameFold_noop rn.id oldTitle p (renameReplacement newTitle)
      now hpat db.notes db hall
    have := hok.symm.trans hnoop
    simpa using this
  · intro l1 m l2 hsplit hmne hmt hl1 hl2
    have hmmem : m ∈ db.notes := by
      rw [hsplit]
      exact List.mem_append_right l1 (List.mem_cons_self m l2)
    have hget_m : getNoteDB db m.id = some m := nodup_find_self db.notes hnd m hmmem
    have hbm : (m.id == rn.id) = false := by simp [hmne]
    have step1 : renameFold rn.id oldTitle (renameReplacement newTitle) now db l1 =
        Except.ok db := renameFold_noop _ _ p _ _ hpat l1 db hl1
    have happ : renameFold rn.id oldTitle (renameReplacement newTitle) now db
        (l1 ++ m :: l2) =
        renameFold rn.id oldTitle (renameReplacement newTitle) now db (m :: l2) :=
      renameFold_append _ _ _ _ l1 (m :: l2) db db step1
    have hupd : updateNoteDB db m.id
        (contentPatch (String.mk (regexReplaceAll p (renameReplacement newTitle)
          m.content.toList))) now =
        Except.ok (mergeNote m
            (contentPatch (String.mk (regexReplaceAll p (renameReplacement newTitle)
              m.content.toList))) now,
          { db with notes := putNote db.notes (mergeNote m
            (contentPatch (String.mk (regexReplaceAll p (renameReplacement newTitle)
              m.content.toList))) now) }) := by
      rw [updateNoteDB, hget_m]
    have hstep : renameFold rn.id oldTitle (renameReplacement newTitle) now db
        (m :: l2) = Except.ok (syncBacklinksForNote
          { db with notes := putNote db.notes (mergeNote m
              (contentPatch (String.mk (regexReplaceAll p
                (renameReplacement newTitle) m.content.toList))) now) }
          m.id
          (String.mk (regexReplaceAll p (renameReplacement newTitle)
            m.content.toList)) now) := by
      simp only [renameFold, hbm, Bool.false_eq_true, if_false, hpat, hmt,
        if_true, hupd]
      exact renameFold_noop _ _ p _ _ hpat l2 _ hl2
    have hfinal : renameFold rn.id oldTitle (renameReplacement newTitle) now db
        db.notes =
        renameFold rn.id oldTitle (renameReplacement newTitle) now db (m :: l2) := by
      rw [hsplit]
      exact happ
    have := hok.symm.trans (hfinal.trans hstep)
    simpa using this
  · intro hsafe
    have hps := titlePattern_safe oldTitle hsafe
    rw [hpat] at hps
    have hp : p = (wikiPatChars oldTitle).map RTok.lit := by
      simpa using hps
    constructor
    · intro s
      rw [hp, regexTest_lits]
    · intro s
      rw [hp, regexReplaceAll_lits]

/-- Database for the C9 witness: a metacharacter-free title and one linking
note containing a differently-cased literal wiki link. -/
def db91 : DB :=
  { notes := [noteRec "n1" "alpha" "", noteRec "n2" "beta" "go [[Alpha]] now"],
    tags := [], backlinks := [], fresh := 2 }

/-- Compiled pattern of the title `alpha`. -/
def p91 : List RTok := (wikiPatChars "alpha").map RTok.lit

/-- Witness for the amended C9 theorem at a concrete rename with a safe
title. -/
theorem C9_rename_regex_rewrite_witness :
    ∃ db', updateBacklinksOnNoteRename db91 "alpha" "gamma" 7 = Except.ok db' ∧
      db'.notes = db91.notes.map
        (renameNoteFn (noteRec "n1" "alpha" "").id p91 (renameReplacement "gamma") 7) ∧
      (∀ n ∈ db91.notes, n.id ≠ (noteRec "n1" "alpha" "").id →
        regexTest p91 n.content.toList = false → n ∈ db'.notes) ∧
      ((∀ n ∈ db91.notes, n.id = (noteRec "n1" "alpha" "").id ∨
        regexTest p91 n.content.toList = false) → db' = db91) ∧
      (∀ l1 m l2, db91.notes = l1 ++ m :: l2 → m.id ≠ (noteRec "n1" "alpha" "").id →
        regexTest p91 m.content.toList = true →
        (∀ n ∈ l1, n.id = (noteRec "n1" "alpha" "").id ∨
          regexTest p91 n.content.toList = false) →
        (∀ n ∈ l2, n.id = (noteRec "n1" "alpha" "").id ∨
          regexTest p91 n.content.toList = false) →
        db' = syncBacklinksForNote
          { db91 with notes := putNote db91.notes (mergeNote m
              (contentPatch (String.mk (regexReplaceAll p91
                (renameReplacement "gamma") m.content.toList))) 7) }
          m.id
          (String.mk (regexReplaceAll p91 (renameReplacement "gamma")
            m.content.toList)) 7) ∧
      ((∀ c ∈ "alpha".toList, safeChar c = true) →
        (∀ s, regexTest p91 s = ciContains (wikiPatChars "alpha") s) ∧
        (∀ s, regexReplaceAll p91 (renameReplacement "gamma") s =
          ciReplaceAll (wikiPatChars "alpha") (renameReplacement "gamma") s)) :=
  C9_rename_regex_rewrite db91 "alpha" "gamma" 7 (noteRec "n1" "alpha" "") p91
    (by decide) (by decide) (by decide)
